import Mathlib

/-!
Verification of the text-record parser and field normalizer of the
line-sheets service (`app.py`).  The parser is a pure function of its
input text; we embed it shallowly: Python strings become `List Char`,
the record dictionary becomes a structure whose fields hold a dynamic
`PyVal` (mirroring the Python dict whose values are `None`, `str`,
`int` or `float`), and the one Python exception that can escape
(`IndexError` from `re.split(...)[1]` when the text has no colon) is an
explicit constructor of the result type.
-/

namespace LineSheets

/-- the Python `\s` character class in Unicode mode (same set as
`str.isspace`): ASCII whitespace, the separator controls 0x1c–0x1f,
NEL, NBSP and the Unicode space characters. -/
def pyIsSpace (c : Char) : Bool :=
  c = ' ' || (9 ≤ c.toNat && c.toNat ≤ 13) ||
  (0x1c ≤ c.toNat && c.toNat ≤ 0x1f) || c.toNat = 0x85 || c.toNat = 0xa0 ||
  c.toNat = 0x1680 || (0x2000 ≤ c.toNat && c.toNat ≤ 0x200a) ||
  c.toNat = 0x2028 || c.toNat = 0x2029 || c.toNat = 0x202f ||
  c.toNat = 0x205f || c.toNat = 0x3000

/-- Python `str.strip()`: remove leading and trailing whitespace. -/
def pyStrip (cs : List Char) : List Char :=
  ((cs.dropWhile pyIsSpace).reverse.dropWhile pyIsSpace).reverse

/-- Python `str.lower()` restricted to the ASCII range (the only case
mappings that can affect matching against the alias table, whose
entries are CJK or lowercase ASCII). -/
def pyLowerChar (c : Char) : Char :=
  if 'A' ≤ c && c ≤ 'Z' then Char.ofNat (c.toNat + 32) else c

def pyLower (cs : List Char) : List Char := cs.map pyLowerChar

/-- The `ALIASES` table of `app.py`, in source (dict-insertion) order. -/
inductive Field | item | qty | price | note
deriving DecidableEq, Repr

def ALIASES : List (Field × List (List Char)) :=
  [ (.item,  ["品項".data, "項目".data, "品名".data, "item".data]),
    (.qty,   ["數量".data, "數目".data, "qty".data, "數".data]),
    (.price, ["單價".data, "價格".data, "價".data, "price".data]),
    (.note,  ["備註".data, "備註說明".data, "note".data]) ]

/-- The loop of `norm(k)` of `app.py` after the label has been stripped
and lowercased: return the first canonical field one of whose aliases
lowercases to the key. -/
def normKey (k : List Char) : Option Field :=
  ALIASES.findSome? fun sa =>
    if sa.2.any (fun a => k = pyLower a) then some sa.1 else none

/-- `norm(k)` of `app.py`: strip and lowercase the label, then scan the
alias table. -/
def norm (k : List Char) : Option Field :=
  normKey (pyLower (pyStrip k))

/-- A Python dict value as it occurs in the parser record. -/
inductive PyVal
  | vNone
  | vStr (s : List Char)
  | vInt (n : Int)
  | vFloat (q : Rat)
deriving DecidableEq, Repr

structure Rec where
  item : PyVal
  qty : PyVal
  price : PyVal
  note : PyVal
deriving DecidableEq, Repr

def Rec.get (r : Rec) : Field → PyVal
  | .item => r.item
  | .qty => r.qty
  | .price => r.price
  | .note => r.note

def Rec.set (r : Rec) : Field → PyVal → Rec
  | .item, v => { r with item := v }
  | .qty, v => { r with qty := v }
  | .price, v => { r with price := v }
  | .note, v => { r with note := v }

/-- `{"item":None,"qty":None,"price":None,"note":None}`. -/
def emptyRec : Rec := ⟨.vNone, .vNone, .vNone, .vNone⟩

/-- `re.match(r"^\s*[紀记]錄[:：\s]", text)`: after the maximal run of
leading whitespace, the text starts with 紀 or 记, then 錄, then a
colon (ASCII or full-width) or a whitespace character. -/
def isRecordHead (cs : List Char) : Bool :=
  match cs.dropWhile pyIsSpace with
  | c1 :: c2 :: c3 :: _ =>
      (c1 = '紀' || c1 = '记') && c2 = '錄' &&
      (c3 = ':' || c3 = '：' || pyIsSpace c3)
  | _ => false

def isColon (c : Char) : Bool := c = '：' || c = ':'

/-- `re.split(r"[：:]", text, 1)`: split at the first colon, if any. -/
def splitFirstColon : List Char → Option (List Char × List Char)
  | [] => none
  | c :: cs =>
      if isColon c then some ([], cs)
      else match splitFirstColon cs with
        | some (pre, post) => some (c :: pre, post)
        | none => none

/-- One of the body delimiters `[,，;；\n]`. -/
def isFragDelim (c : Char) : Bool :=
  c = ',' || c = '，' || c = ';' || c = '；' || c = '\n'

mutual
/-- `re.split(r"[,，;；\n]+", body)`: a run of delimiters separates two
fragments (`splitRunsGo` is scanning a fragment, `splitRunsSkip` is
inside a delimiter run). -/
def splitRunsGo (acc : List Char) : List Char → List (List Char)
  | [] => [acc.reverse]
  | c :: cs =>
      if isFragDelim c then acc.reverse :: splitRunsSkip cs
      else splitRunsGo (c :: acc) cs

def splitRunsSkip : List Char → List (List Char)
  | [] => [[]]
  | c :: cs => if isFragDelim c then splitRunsSkip cs else splitRunsGo [c] cs
end

def splitRuns (cs : List Char) : List (List Char) := splitRunsGo [] cs

/-- One of the key/value delimiters `[=：:]`. -/
def isKVDelim (c : Char) : Bool := c = '=' || c = '：' || c = ':'

/-- `re.split(r"[=：:]", p, 1)`: `some (k, v)` when a delimiter exists
(the list has length 2), `none` when it does not (length 1). -/
def kvSplit : List Char → Option (List Char × List Char)
  | [] => none
  | c :: cs =>
      if isKVDelim c then some ([], cs)
      else match kvSplit cs with
        | some (k, v) => some (c :: k, v)
        | none => none

/-- The loop body of `parse`: process one fragment `p`.  Empty (after
strip) fragments are skipped; a `k=v` fragment sets the normalized
field (dropped silently when the label does not normalize); any other
fragment is appended to `note`, joined with `" | "` when `note` is
already a non-empty string (Python truthiness of `r["note"]`). -/
def applyFrag (r : Rec) (p : List Char) : Rec :=
  if pyStrip p = [] then r
  else match kvSplit p with
    | some (k0, v0) =>
        let k := pyStrip k0
        let v := pyStrip v0
        match norm k with
        | some std => r.set std (.vStr v)
        | none => r
    | none =>
        let p' := pyStrip p
        { r with note :=
            match r.note with
            | .vStr n => if n = [] then .vStr p' else .vStr (n ++ " | ".data ++ p')
            | _ => .vStr p' }

def isAsciiDigit (c : Char) : Bool := '0' ≤ c && c ≤ '9'

def digitVal (c : Char) : Nat := c.toNat - '0'.toNat

/-- A Python digit group: ASCII digits with single underscores allowed
between digits (`1_000` is valid, `_1`, `1_`, `1__0` are not).  Returns
the value and the number of digits consumed, or `none` if the list is
not exactly one well-formed digit group.  (Unicode digit forms, which
Python also accepts, do not occur in this input language and are
omitted.) -/
def digitGroup : List Char → Option (Nat × Nat)
  | [] => none
  | c :: cs =>
      if isAsciiDigit c then digitGroupRest (digitVal c) 1 cs else none
where
  digitGroupRest (acc : Nat) (len : Nat) : List Char → Option (Nat × Nat)
    | [] => some (acc, len)
    | c :: cs =>
        if isAsciiDigit c then digitGroupRest (acc * 10 + digitVal c) (len + 1) cs
        else if c = '_' then
          match cs with
          | c2 :: cs2 =>
              if isAsciiDigit c2 then
                digitGroupRest (acc * 10 + digitVal c2) (len + 1) cs2
              else none
          | [] => none
        else none

/-- Split off an optional ASCII sign, returning `true` for negative. -/
def pySign : List Char → Bool × List Char
  | '+' :: cs => (false, cs)
  | '-' :: cs => (true, cs)
  | cs => (false, cs)

/-- Python `int(s)` on an already-stripped string: optional sign then
one digit group. -/
def pyInt (cs : List Char) : Option Int :=
  let (neg, rest) := pySign cs
  match digitGroup rest with
  | some (v, _) => some (if neg then -(v : Int) else (v : Int))
  | none => none

/-- Take a leading digit group if present, else zero digits consumed. -/
def digitGroupOpt (cs : List Char) : Option (Nat × Nat × List Char) :=
  match cs with
  | c :: _ =>
      if isAsciiDigit c then
        match spanGroup cs with
        | some (v, n, rest) => some (v, n, rest)
        | none => none
      else some (0, 0, cs)
  | [] => some (0, 0, cs)
where
  /-- Longest well-formed digit-group prefix and the remainder. -/
  spanGroup : List Char → Option (Nat × Nat × List Char)
    | [] => none
    | c :: cs =>
        if isAsciiDigit c then spanRest (digitVal c) 1 cs else none
  spanRest (acc : Nat) (len : Nat) : List Char → Option (Nat × Nat × List Char)
    | [] => some (acc, len, [])
    | c :: cs =>
        if isAsciiDigit c then spanRest (acc * 10 + digitVal c) (len + 1) cs
        else if c = '_' then
          match cs with
          | c2 :: cs2 =>
              if isAsciiDigit c2 then spanRest (acc * 10 + digitVal c2) (len + 1) cs2
              else none
          | [] => none
        else some (acc, len, c :: cs)

/-- Python `float(s)` on the stripped, `'.'`-containing strings `num`
can send it (`inf`/`nan` spellings contain no `'.'` and are therefore
unreachable): optional sign, a mantissa `d*.d*` with at least one
digit, and an optional exponent.  The value is kept as an exact
rational (binary64 rounding is immaterial to the parser contract). -/
def pyFloat (cs : List Char) : Option Rat :=
  let (neg, rest) := pySign cs
  match digitGroupOpt rest with
  | none => none
  | some (ip, ilen, rest1) =>
      match rest1 with
      | '.' :: rest2 =>
          match digitGroupOpt rest2 with
          | none => none
          | some (fp, flen, rest3) =>
              if ilen + flen = 0 then none
              else
                let n : Nat := ip * 10 ^ flen + fp
                let mk : Nat → Nat → Rat := fun num den =>
                  mkRat (if neg then -(num : Int) else (num : Int)) den
                match rest3 with
                | [] => some (mk n (10 ^ flen))
                | e :: rest4 =>
                    if e = 'e' || e = 'E' then
                      let (eneg, rest5) := pySign rest4
                      match digitGroup rest5 with
                      | some (ev, _) =>
                          if eneg then some (mk n (10 ^ (flen + ev)))
                          else some (mk (n * 10 ^ ev) (10 ^ flen))
                      | none => none
                    else none
      | _ => none

/-- `num(s)` of `app.py` on a dict value: `None` stays `None`; a string
has its ASCII commas removed and is stripped, then parsed as a float if
it contains `'.'`, else as an int; any failure yields `None`.  (The
non-`None`, non-string cases never occur before coercion.) -/
def numV : PyVal → PyVal
  | .vStr s =>
      let s' := pyStrip (s.filter (fun c => c ≠ ','))
      if s'.contains '.' then
        match pyFloat s' with
        | some q => .vFloat q
        | none => .vNone
      else
        match pyInt s' with
        | some n => .vInt n
        | none => .vNone
  | _ => .vNone

/-- Result of `parse`: `notARecord` is Python `None`, `indexError` is
the uncaught `IndexError` from `re.split(r"[：:]", text, 1)[1]` when
the text contains no colon, `ok` is the returned dict. -/
inductive ParseResult
  | notARecord
  | indexError
  | ok (r : Rec)
deriving DecidableEq, Repr

/-- `parse(text)` of `app.py`. -/
def parseChars (cs : List Char) : ParseResult :=
  if isRecordHead cs then
    match splitFirstColon cs with
    | none => .indexError
    | some (_, rest) =>
        let body := pyStrip rest
        let parts := splitRuns body
        let r := parts.foldl applyFrag emptyRec
        .ok { r with qty := numV r.qty, price := numV r.price }
  else .notARecord

def parse (s : String) : ParseResult := parseChars s.data

/-! ## Derived notions used to state the claims -/

/-- The synonym table as the specification lists it (§4.1). -/
def specSyns : Field → List (List Char)
  | .item => ["品項".data, "項目".data, "品名".data, "item".data]
  | .qty => ["數量".data, "數目".data, "qty".data, "數".data]
  | .price => ["單價".data, "價格".data, "價".data, "price".data]
  | .note => ["備註".data, "備註說明".data, "note".data]

/-- A fragment that resolves to a `key = value` pair with a recognized
label: the key/value split succeeds and the stripped key normalizes. -/
def fragResolve (p : List Char) : Option (Field × List Char) :=
  match kvSplit p with
  | some (k0, v0) =>
      match norm (pyStrip k0) with
      | some f => some (f, pyStrip v0)
      | none => none
  | none => none

/-- Unlabeled fragments joined in encounter order with `" | "`. -/
def joinNotes : List (List Char) → List Char
  | [] => []
  | [x] => x
  | x :: xs => x ++ " | ".data ++ joinNotes xs

/-- `quantity`/`price` invariant shape: absent or numeric, never a
string. -/
def numericOrAbsent (v : PyVal) : Prop :=
  v = .vNone ∨ (∃ n, v = .vInt n) ∨ (∃ q, v = .vFloat q)

/-! ## Helper lemmas -/

theorem mem_dropWhile_of_not {p : Char → Bool} {c : Char} :
    ∀ {cs : List Char}, c ∈ cs → p c = false → c ∈ cs.dropWhile p := by
  intro cs
  induction cs with
  | nil => intro h _; cases h
  | cons a as ih =>
      intro hmem hc
      by_cases ha : p a = true
      · rw [List.dropWhile_cons_of_pos ha]
        rcases List.mem_cons.mp hmem with rfl | hmem
        · rw [hc] at ha; cases ha
        · exact ih hmem hc
      · rw [List.dropWhile_cons_of_neg ha]
        exact hmem

theorem mem_pyStrip {c : Char} {cs : List Char} (hmem : c ∈ cs)
    (hc : pyIsSpace c = false) : c ∈ pyStrip cs := by
  unfold pyStrip
  rw [List.mem_reverse]
  exact mem_dropWhile_of_not (List.mem_reverse.mpr (mem_dropWhile_of_not hmem hc)) hc

theorem pyStrip_ne_nil {c : Char} {cs : List Char} (hmem : c ∈ cs)
    (hc : pyIsSpace c = false) : pyStrip cs ≠ [] :=
  List.ne_nil_of_mem (mem_pyStrip hmem hc)

theorem kvSplit_exists_delim {p : List Char} {x : List Char × List Char}
    (h : kvSplit p = some x) : ∃ c ∈ p, isKVDelim c = true := by
  induction p generalizing x with
  | nil => simp [kvSplit] at h
  | cons a as ih =>
      rw [kvSplit] at h
      by_cases ha : isKVDelim a = true
      · exact ⟨a, List.mem_cons_self a as, ha⟩
      · rw [if_neg ha] at h
        cases hks : kvSplit as with
        | none => rw [hks] at h; cases h
        | some y =>
            obtain ⟨c, hc, hd⟩ := ih hks
            exact ⟨c, List.mem_cons_of_mem a hc, hd⟩

theorem kvDelim_not_space {c : Char} (h : isKVDelim c = true) :
    pyIsSpace c = false := by
  have h2 : (c = '=' ∨ c = '：') ∨ c = ':' := by simpa [isKVDelim] using h
  rcases h2 with (h2 | h2) | h2 <;> subst h2 <;> decide

theorem pyStrip_ne_nil_of_kvSplit {p : List Char} {x : List Char × List Char}
    (h : kvSplit p = some x) : pyStrip p ≠ [] := by
  obtain ⟨c, hc, hd⟩ := kvSplit_exists_delim h
  exact pyStrip_ne_nil hc (kvDelim_not_space hd)

theorem Rec.get_set (r : Rec) (f : Field) (v : PyVal) :
    (r.set f v).get f = v := by
  cases f <;> rfl

theorem applyFrag_of_resolve {p : List Char} {f : Field} {v : List Char}
    (r : Rec) (h : fragResolve p = some (f, v)) :
    applyFrag r p = r.set f (.vStr v) := by
  unfold fragResolve at h
  cases hkv : kvSplit p with
  | none => rw [hkv] at h; cases h
  | some kv =>
      obtain ⟨k0, v0⟩ := kv
      rw [hkv] at h
      dsimp only at h
      cases hn : norm (pyStrip k0) with
      | none => rw [hn] at h; cases h
      | some f0 =>
          rw [hn] at h
          simp only [Option.some.injEq, Prod.mk.injEq] at h
          obtain ⟨rfl, rfl⟩ := h
          unfold applyFrag
          rw [if_neg (pyStrip_ne_nil_of_kvSplit hkv), hkv]
          dsimp only
          rw [hn]

theorem applyFrag_of_dropped {p : List Char} {k0 v0 : List Char}
    (r : Rec) (hkv : kvSplit p = some (k0, v0))
    (hn : norm (pyStrip k0) = none) : applyFrag r p = r := by
  unfold applyFrag
  rw [if_neg (pyStrip_ne_nil_of_kvSplit hkv), hkv]
  dsimp only
  rw [hn]

theorem applyFrag_of_note {p : List Char} (r : Rec)
    (hne : pyStrip p ≠ []) (hkv : kvSplit p = none) :
    applyFrag r p =
      { r with note :=
          match r.note with
          | .vStr n =>
              if n = [] then .vStr (pyStrip p)
              else .vStr (n ++ " | ".data ++ pyStrip p)
          | _ => .vStr (pyStrip p) } := by
  unfold applyFrag
  rw [if_neg hne, hkv]

theorem splitFirstColon_of_any {cs : List Char}
    (h : cs.any isColon = true) : ∃ x, splitFirstColon cs = some x := by
  induction cs with
  | nil => simp at h
  | cons a as ih =>
      rw [splitFirstColon]
      by_cases ha : isColon a = true
      · rw [if_pos ha]; exact ⟨_, rfl⟩
      · rw [if_neg ha]
        rw [List.any_cons, Bool.or_eq_true] at h
        rcases h with h | h
        · exact absurd h ha
        · obtain ⟨⟨pre, post⟩, hx⟩ := ih h
          rw [hx]
          exact ⟨_, rfl⟩

theorem any_iff_mem (kl : List Char) (l : List (List Char)) :
    (l.any fun a => decide (kl = pyLower a)) = true ↔ kl ∈ l.map pyLower := by
  rw [List.any_eq_true]
  simp only [decide_eq_true_eq, List.mem_map]
  constructor
  · rintro ⟨a, ha, h⟩; exact ⟨a, ha, h.symm⟩
  · rintro ⟨a, ha, h⟩; exact ⟨a, ha, h.symm⟩

theorem syn_disjoint {kl : List Char} {f g : Field} (hfg : f ≠ g)
    (hf : kl ∈ (specSyns f).map pyLower)
    (hg : kl ∈ (specSyns g).map pyLower) : False := by
  rw [List.mem_map] at hf
  obtain ⟨a, ha, rfl⟩ := hf
  cases f <;> cases g <;>
    first
      | exact hfg rfl
      | (simp only [specSyns] at ha hg
         fin_cases ha <;> exact absurd hg (by decide))

theorem normKey_eq_some_iff (kl : List Char) (f : Field) :
    normKey kl = some f ↔ kl ∈ (specSyns f).map pyLower := by
  by_cases h1 : ((["品項".data, "項目".data, "品名".data, "item".data] :
      List (List Char)).any fun a => decide (kl = pyLower a)) = true
  · have lhs : normKey kl = some Field.item := by
      simp [normKey, ALIASES, List.findSome?, h1]
    have hgrp : kl ∈ (specSyns Field.item).map pyLower := (any_iff_mem kl _).mp h1
    constructor
    · intro h
      rw [lhs] at h
      injection h with h
      subst h
      exact hgrp
    · intro hm
      cases f with
      | item => exact lhs
      | qty => exact absurd hm (fun hm => syn_disjoint (by decide) hm hgrp)
      | price => exact absurd hm (fun hm => syn_disjoint (by decide) hm hgrp)
      | note => exact absurd hm (fun hm => syn_disjoint (by decide) hm hgrp)
  · by_cases h2 : ((["數量".data, "數目".data, "qty".data, "數".data] :
        List (List Char)).any fun a => decide (kl = pyLower a)) = true
    · have lhs : normKey kl = some Field.qty := by
        simp [normKey, ALIASES, List.findSome?, h1, h2]
      have hgrp : kl ∈ (specSyns Field.qty).map pyLower := (any_iff_mem kl _).mp h2
      constructor
      · intro h
        rw [lhs] at h
        injection h with h
        subst h
        exact hgrp
      · intro hm
        cases f with
        | qty => exact lhs
        | item => exact absurd hm (fun hm => syn_disjoint (by decide) hm hgrp)
        | price => exact absurd hm (fun hm => syn_disjoint (by decide) hm hgrp)
        | note => exact absurd hm (fun hm => syn_disjoint (by decide) hm hgrp)
    · by_cases h3 : ((["單價".data, "價格".data, "價".data, "price".data] :
          List (List Char)).any fun a => decide (kl = pyLower a)) = true
      · have lhs : normKey kl = some Field.price := by
          simp [normKey, ALIASES, List.findSome?, h1, h2, h3]
        have hgrp : kl ∈ (specSyns Field.price).map pyLower :=
          (any_iff_mem kl _).mp h3
        constructor
        · intro h
          rw [lhs] at h
          injection h with h
          subst h
          exact hgrp
        · intro hm
          cases f with
          | price => exact lhs
          | item => exact absurd hm (fun hm => syn_disjoint (by decide) hm hgrp)
          | qty => exact absurd hm (fun hm => syn_disjoint (by decide) hm hgrp)
          | note => exact absurd hm (fun hm => syn_disjoint (by decide) hm hgrp)
      · by_cases h4 : ((["備註".data, "備註說明".data, "note".data] :
            List (List Char)).any fun a => decide (kl = pyLower a)) = true
        · have lhs : normKey kl = some Field.note := by
            simp [normKey, ALIASES, List.findSome?, h1, h2, h3, h4]
          have hgrp : kl ∈ (specSyns Field.note).map pyLower :=
            (any_iff_mem kl _).mp h4
          constructor
          · intro h
            rw [lhs] at h
            injection h with h
            subst h
            exact hgrp
          · intro hm
            cases f with
            | note => exact lhs
            | item => exact absurd hm (fun hm => syn_disjoint (by decide) hm hgrp)
            | qty => exact absurd hm (fun hm => syn_disjoint (by decide) hm hgrp)
            | price => exact absurd hm (fun hm => syn_disjoint (by decide) hm hgrp)
        · have lhs : normKey kl = none := by
            simp [normKey, ALIASES, List.findSome?, h1, h2, h3, h4]
          constructor
          · intro h
            rw [lhs] at h
            cases h
          · intro hm
            exfalso
            cases f with
            | item => exact h1 ((any_iff_mem kl _).mpr hm)
            | qty => exact h2 ((any_iff_mem kl _).mpr hm)
            | price => exact h3 ((any_iff_mem kl _).mpr hm)
            | note => exact h4 ((any_iff_mem kl _).mpr hm)

theorem kvSplit_eq_none {p : List Char}
    (h : ∀ c ∈ p, isKVDelim c = false) : kvSplit p = none := by
  induction p with
  | nil => rfl
  | cons a as ih =>
      rw [kvSplit, if_neg (by simp [h a (List.mem_cons_self a as)])]
      rw [ih fun c hc => h c (List.mem_cons_of_mem a hc)]

def joinCont (n : List Char) : List (List Char) → List Char
  | [] => n
  | x :: xs => joinCont (n ++ " | ".data ++ x) xs

theorem joinNotes_append (n x : List Char) (xs : List (List Char)) :
    joinNotes ((n ++ " | ".data ++ x) :: xs) =
      n ++ " | ".data ++ joinNotes (x :: xs) := by
  cases xs with
  | nil => rfl
  | cons y ys => simp [joinNotes, List.append_assoc]

theorem joinCont_eq (xs : List (List Char)) :
    ∀ n, joinCont n xs = joinNotes (n :: xs) := by
  induction xs with
  | nil => intro n; rfl
  | cons x xs ih =>
      intro n
      rw [joinCont, ih, joinNotes_append]
      rfl

theorem notes_fold_aux (ps : List (List Char)) :
    ∀ (r : Rec) (n : List Char), r.note = .vStr n → n ≠ [] →
    (∀ p ∈ ps, pyStrip p ≠ [] ∧ kvSplit p = none) →
    (ps.foldl applyFrag r).note = .vStr (joinCont n (ps.map pyStrip)) := by
  induction ps with
  | nil =>
      intro r n hn _ _
      simpa [joinCont] using hn
  | cons p ps ih =>
      intro r n hn hne hps
      obtain ⟨hpne, hpkv⟩ := hps p (List.mem_cons_self p ps)
      rw [List.foldl_cons, List.map_cons, joinCont]
      have hnote : (applyFrag r p).note = .vStr (n ++ " | ".data ++ pyStrip p) := by
        rw [applyFrag_of_note r hpne hpkv]
        dsimp only
        rw [hn]
        dsimp only
        rw [if_neg hne]
      exact ih _ _ hnote (by simp)
        (fun q hq => hps q (List.mem_cons_of_mem p hq))

/-! ## The claims -/

/-- C1: the specification states that parsing `紀錄:數量=1,000` yields
quantity 1000, with thousands-separator commas stripped from the chosen
value before numeric coercion.  The code disagrees on the headline
example: the ASCII comma is a body delimiter, so the fragment splitter
of Step 3 cuts `數量=1,000` into `數量=1` and `000` before coercion ever
runs; the parse yields quantity 1 with note `000`.  The coercion `num`
in isolation does strip commas and would map `1,000` to the integer
1000 (second conjunct), and the remaining Step 5 examples behave as
specified: `單價=50.5` gives the decimal 50.5 and `數量=abc` degrades to
an absent field. -/
theorem claim_C1 :
    parse "紀錄:數量=1,000" =
      .ok ⟨.vNone, .vInt 1, .vNone, .vStr "000".data⟩ ∧
    numV (.vStr "1,000".data) = .vInt 1000 ∧
    parse "紀錄:單價=50.5" =
      .ok ⟨.vNone, .vNone, .vFloat (mkRat 101 2), .vNone⟩ ∧
    (mkRat 101 2 : Rat) = 50.5 ∧
    parse "紀錄:數量=abc" = .ok ⟨.vNone, .vNone, .vNone, .vNone⟩ := by
  refine ⟨by decide, by decide, by decide, ?_, by decide⟩
  rw [Rat.mkRat_eq_div]
  norm_num

/-- C2 counterexample: the text `紀錄 a` matches the record prefix (the
marker followed by whitespace) but contains no colon, so
`re.split(r"[：:]", text, 1)[1]` raises an uncaught IndexError instead
of returning a ParsedRecord. -/
theorem claim_C2_counterexample :
    isRecordHead "紀錄 a".data = true ∧ parse "紀錄 a" = .indexError :=
  ⟨by decide, by decide⟩

/-- C2 (amended): for every text that matches the record prefix of
Step 1 and contains at least one colon (ASCII or full-width), `parse`
returns a ParsedRecord — never the NotARecord signal and no error. -/
theorem claim_C2 (t : String) (hhead : isRecordHead t.data = true)
    (hcolon : t.data.any isColon = true) : ∃ r, parse t = .ok r := by
  unfold parse parseChars
  rw [if_pos hhead]
  obtain ⟨⟨pre, post⟩, hx⟩ := splitFirstColon_of_any hcolon
  rw [hx]
  exact ⟨_, rfl⟩

theorem claim_C2_witness : ∃ r, parse "紀錄:品項=蘋果" = .ok r :=
  claim_C2 "紀錄:品項=蘋果" (by decide) (by decide)

/-- C3: `parse` returns the NotARecord signal exactly for the texts
that do not begin (ignoring leading whitespace) with `紀錄` or `记錄`
immediately followed by `:`, `：` or a whitespace character; on such
texts no record is extracted. -/
theorem claim_C3 (t : String) :
    parse t = .notARecord ↔ isRecordHead t.data = false := by
  unfold parse parseChars
  by_cases h : isRecordHead t.data = true
  · rw [if_pos h]
    constructor
    · intro hh
      exfalso
      cases hsp : splitFirstColon t.data with
      | none => rw [hsp] at hh; simp at hh
      | some x => obtain ⟨pre, post⟩ := x; rw [hsp] at hh; simp at hh
    · intro hf
      exact absurd (h.symm.trans hf) (by decide)
  · have hf : isRecordHead t.data = false := by simpa using h
    rw [if_neg h]
    simp [hf]

theorem claim_C3_witness : parse "hello" = .notARecord :=
  (claim_C3 "hello").mpr (by decide)

/-- C4: the field normalizer returns the canonical field `f` exactly
when the label, stripped and lowercased, equals the lowercasing of one
of the configured synonyms of `f`; otherwise it returns no match.
Matching is exact — no fuzzy or partial matching. -/
theorem claim_C4 (k : List Char) (f : Field) :
    norm k = some f ↔ pyLower (pyStrip k) ∈ (specSyns f).map pyLower :=
  normKey_eq_some_iff (pyLower (pyStrip k)) f

theorem claim_C4_witness : norm " ITEM ".data = some Field.item :=
  (claim_C4 " ITEM ".data Field.item).mpr (by decide)

/-- C5: last-write-wins — whatever earlier fragments did to the record,
a final `key=value` fragment that resolves to field `f` (other than
note) leaves `f` holding that value; in particular
`紀錄:品項=A,品項=B` yields item `B`. -/
theorem claim_C5 :
    (∀ (r : Rec) (ps : List (List Char)) (p : List Char) (f : Field)
        (v : List Char),
        fragResolve p = some (f, v) → f ≠ Field.note →
        ((ps ++ [p]).foldl applyFrag r).get f = .vStr v) ∧
    parse "紀錄:品項=A,品項=B" =
      .ok ⟨.vStr "B".data, .vNone, .vNone, .vNone⟩ := by
  constructor
  · intro r ps p f v h _
    rw [List.foldl_append, List.foldl_cons, List.foldl_nil,
      applyFrag_of_resolve _ h, Rec.get_set]
  · decide

theorem claim_C5_witness :
    ((["品項=A".data] ++ ["品項=B".data]).foldl applyFrag emptyRec).get
      Field.item = .vStr "B".data :=
  claim_C5.1 emptyRec ["品項=A".data] "品項=B".data Field.item "B".data
    (by decide) (by decide)

/-- C6: every non-empty fragment containing none of `=`, `:`, `：` is
appended (trimmed) to note, and several such unlabeled fragments yield
their concatenation in encounter order joined by the literal `" | "`;
in particular `紀錄:品項=蘋果, 隨便寫的話, 另一句` yields note
`隨便寫的話 | 另一句` and item `蘋果`. -/
theorem claim_C6 :
    (∀ ps : List (List Char), ps ≠ [] →
        (∀ p ∈ ps, pyStrip p ≠ [] ∧ (∀ c ∈ p, isKVDelim c = false)) →
        (ps.foldl applyFrag emptyRec).note =
          .vStr (joinNotes (ps.map pyStrip))) ∧
    parse "紀錄:品項=蘋果, 隨便寫的話, 另一句" =
      .ok ⟨.vStr "蘋果".data, .vNone, .vNone,
           .vStr "隨便寫的話 | 另一句".data⟩ := by
  constructor
  · intro ps hne hps
    cases ps with
    | nil => exact absurd rfl hne
    | cons p ps =>
        obtain ⟨hpne, hpkv⟩ := hps p (List.mem_cons_self p ps)
        rw [List.foldl_cons, List.map_cons]
        have h1 : (applyFrag emptyRec p).note = .vStr (pyStrip p) := by
          rw [applyFrag_of_note emptyRec hpne (kvSplit_eq_none hpkv)]
          rfl
        rw [notes_fold_aux ps _ (pyStrip p) h1 hpne
          (fun q hq => ⟨(hps q (List.mem_cons_of_mem p hq)).1,
            kvSplit_eq_none (hps q (List.mem_cons_of_mem p hq)).2⟩),
          joinCont_eq]
  · decide

theorem claim_C6_witness :
    (["隨便寫的話".data, "另一句".data].foldl applyFrag emptyRec).note =
      .vStr (joinNotes (["隨便寫的話".data, "另一句".data].map pyStrip)) :=
  claim_C6.1 ["隨便寫的話".data, "另一句".data] (by decide) (by decide)

/-- C7: a fragment that splits into a key and a value but whose key
does not normalize is discarded entirely — the record is unchanged, so
it sets no field and contributes nothing to note; in particular
`紀錄:未知欄=X` yields a record with all four fields absent. -/
theorem claim_C7 :
    (∀ (r : Rec) (p k v : List Char), kvSplit p = some (k, v) →
        norm (pyStrip k) = none → applyFrag r p = r) ∧
    parse "紀錄:未知欄=X" = .ok ⟨.vNone, .vNone, .vNone, .vNone⟩ :=
  ⟨fun r p k v hkv hn => applyFrag_of_dropped r hkv hn, by decide⟩

theorem claim_C7_witness : applyFrag emptyRec "未知欄=X".data = emptyRec :=
  claim_C7.1 emptyRec "未知欄=X".data "未知欄".data "X".data
    (by decide) (by decide)

/-- C8: replacing the label of a `key=value` fragment by any label that
normalizes identically (and keeping the same trimmed value) leaves the
effect on the record unchanged; in particular the all-English and
all-Chinese spellings of the same record parse identically. -/
theorem claim_C8 :
    (∀ (r : Rec) (p1 p2 k1 v1 k2 v2 : List Char),
        kvSplit p1 = some (k1, v1) → kvSplit p2 = some (k2, v2) →
        norm (pyStrip k1) = norm (pyStrip k2) → pyStrip v1 = pyStrip v2 →
        applyFrag r p1 = applyFrag r p2) ∧
    parse "紀錄:item=Apple,qty=10,price=50" =
      parse "紀錄:品項=Apple,數量=10,單價=50" := by
  constructor
  · intro r p1 p2 k1 v1 k2 v2 h1 h2 hk hv
    cases hn : norm (pyStrip k1) with
    | none =>
        have hn2 : norm (pyStrip k2) = none := hk.symm.trans hn
        rw [applyFrag_of_dropped r h1 hn, applyFrag_of_dropped r h2 hn2]
    | some f =>
        have hn2 : norm (pyStrip k2) = some f := hk.symm.trans hn
        have hf1 : fragResolve p1 = some (f, pyStrip v1) := by
          unfold fragResolve; rw [h1]; dsimp only; rw [hn]
        have hf2 : fragResolve p2 = some (f, pyStrip v2) := by
          unfold fragResolve; rw [h2]; dsimp only; rw [hn2]
        rw [applyFrag_of_resolve r hf1, applyFrag_of_resolve r hf2, hv]
  · decide

theorem claim_C8_witness :
    applyFrag emptyRec "item=Apple".data = applyFrag emptyRec "品項=Apple".data :=
  claim_C8.1 emptyRec "item=Apple".data "品項=Apple".data
    "item".data "Apple".data "品項".data "Apple".data
    (by decide) (by decide) (by decide) (by decide)

/-- C9: on every input on which `parse` returns a record, the quantity
and price fields are each either absent or numeric (integer or
decimal) — never the original string. -/
theorem claim_C9 (t : String) (r : Rec) (h : parse t = .ok r) :
    numericOrAbsent r.qty ∧ numericOrAbsent r.price := by
  have hnum : ∀ x, numericOrAbsent (numV x) := by
    intro x
    cases x with
    | vStr s =>
        unfold numV
        dsimp only
        split
        · split
          · right; right; exact ⟨_, rfl⟩
          · left; rfl
        · split
          · right; left; exact ⟨_, rfl⟩
          · left; rfl
    | vNone => left; rfl
    | vInt n => left; rfl
    | vFloat q => left; rfl
  unfold parse parseChars at h
  split at h
  · split at h
    · simp at h
    · dsimp only at h
      injection h with h2
      subst h2
      exact ⟨hnum _, hnum _⟩
  · simp at h

theorem claim_C9_witness :
    numericOrAbsent (Rec.mk .vNone (.vInt 10) .vNone .vNone).qty ∧
    numericOrAbsent (Rec.mk .vNone (.vInt 10) .vNone .vNone).price :=
  claim_C9 "紀錄:數量=10" (Rec.mk .vNone (.vInt 10) .vNone .vNone) (by decide)

/-- C10: a `key=value` fragment whose label resolves to note overwrites
whatever note content was accumulated so far (no `" | "` joining), so
in `紀錄:隨便寫的話, 備註=特價` the labeled fragment discards the
earlier unlabeled one and note ends as `特價`. -/
theorem claim_C10 :
    (∀ (r : Rec) (p k v : List Char), kvSplit p = some (k, v) →
        norm (pyStrip k) = some Field.note →
        (applyFrag r p).note = .vStr (pyStrip v)) ∧
    parse "紀錄:隨便寫的話, 備註=特價" =
      .ok ⟨.vNone, .vNone, .vNone, .vStr "特價".data⟩ := by
  constructor
  · intro r p k v hkv hn
    have hf : fragResolve p = some (Field.note, pyStrip v) := by
      unfold fragResolve; rw [hkv]; dsimp only; rw [hn]
    rw [applyFrag_of_resolve r hf]
    rfl
  · decide

theorem claim_C10_witness :
    (applyFrag (Rec.mk .vNone .vNone .vNone (.vStr "隨便寫的話".data))
        "備註=特價".data).note = .vStr (pyStrip "特價".data) :=
  claim_C10.1 (Rec.mk .vNone .vNone .vNone (.vStr "隨便寫的話".data))
    "備註=特價".data "備註".data "特價".data (by decide) (by decide)

end LineSheets
